import Mathlib

/-!
Shallow embedding of the zerolog asynchronous logging library
(include/zerolog/logger.hpp) and proofs about it.

Byte memory is modelled as a total function from offsets to byte values
(Nat, kept below 256 by every write).  The ring buffer, the thread-local
batch and the logger facade are translated from the source; concurrent
operations are modelled as a sequential interleaving of whole operations
(each atomic CAS succeeds on its first try, which is the effect one
interleaved operation has on the shared state).
-/

namespace ZeroLog

/-- A flat byte array: total map from offset to byte value. -/
def Mem : Type := Nat → Nat

/-- The C memcpy of n bytes of src into buf at offset off. -/
def memWrite (buf : Mem) (off : Nat) (src : Nat → Nat) (n : Nat) : Mem :=
  fun i => if off ≤ i ∧ i < off + n then src (i - off) % 256 else buf i

/-- Store of a uint16 value at offset off, little endian, as in the
source's write through a uint16 pointer (keeps the low 16 bits of v). -/
def store16 (buf : Mem) (off v : Nat) : Mem :=
  fun i => if i = off then v % 256 else if i = off + 1 then v / 256 % 256 else buf i

/-- Load of a little-endian uint16 from offset off. -/
def read16 (buf : Mem) (off : Nat) : Nat :=
  buf off + 256 * buf (off + 1)

/-- The six log levels of enum class LogLevel, in declaration order. -/
inductive LogLevel where
  | TRACE | DEBUG | INFO | WARN | ERROR | CRITICAL
  deriving DecidableEq, Repr

/-- static_cast of a LogLevel to its underlying integer. -/
def LogLevel.toNat : LogLevel → Nat
  | .TRACE => 0
  | .DEBUG => 1
  | .INFO => 2
  | .WARN => 3
  | .ERROR => 4
  | .CRITICAL => 5

/-- The constant string of level tags the source indexes into:
constexpr const char levels[] = "TDIWEC". -/
def levelChars : List Char := ['T', 'D', 'I', 'W', 'E', 'C']

/-- levels[static_cast of L]: indexing of the tag table by the level. -/
def levelTag (L : LogLevel) : Char := levelChars.getD L.toNat 'T'

/-- The record rendering performed by Logger::log on an admitted record,
step by step as the source builds it in the thread-local buffer: clear,
append of "seconds.nanos " from the monotonic clock value ns, append of
the level tag and a space, append of the formatted payload (formatting
itself is out of scope and abstracted as the final payload string),
append of the final newline. -/
def render (ns : Nat) (L : LogLevel) (payload : String) : String :=
  let buf : String := ""
  let buf := buf ++ (toString (ns / 1000000000) ++ "." ++ toString (ns % 1000000000) ++ " ")
  let buf := buf ++ (String.mk [levelTag L] ++ " ")
  let buf := buf ++ payload
  buf ++ "\n"

/-- The spec side of claim C9: the level tag table given by the spec,
TRACE..CRITICAL mapped to T D I W E C. -/
def levelTagSpec : LogLevel → Char
  | .TRACE => 'T'
  | .DEBUG => 'D'
  | .INFO => 'I'
  | .WARN => 'W'
  | .ERROR => 'E'
  | .CRITICAL => 'C'

/-- The spec side of claim C9: the grammar
seconds . nanos space tag space payload newline, assembled right to left. -/
def renderSpec (ns : Nat) (L : LogLevel) (payload : String) : String :=
  toString (ns / 1000000000) ++
    ("." ++ (toString (ns % 1000000000) ++
      (" " ++ (String.mk [levelTagSpec L] ++ (" " ++ (payload ++ "\n"))))))

/-- State of class LockFreeRingBuffer: the two counters, the flat byte
buffer, and the construction constants entry_size and max_entries. -/
structure RB where
  entry_size : Nat
  max_entries : Nat
  head : Nat
  tail : Nat
  buf : Mem

/-- A freshly constructed ring buffer: counters at zero and the backing
array zero initialised (std::make_unique of a char array value
initialises it). -/
def RB.init (es me : Nat) : RB :=
  { entry_size := es, max_entries := me, head := 0, tail := 0, buf := fun _ => 0 }

/-- LockFreeRingBuffer::try_enqueue as one sequential operation: the full
check against max_entries (returning false and leaving the state alone),
then reservation of the slot at tail, the memcpy of len bytes of data into
the slot, and the store of the low 16 bits of len into the two trailer
bytes at the end of the slot.  Counters are Nat; for reachable states
head is at most tail so truncated subtraction matches size_t arithmetic. -/
def RB.try_enqueue (rb : RB) (data : Nat → Nat) (len : Nat) : Bool × RB :=
  if rb.max_entries ≤ rb.tail - rb.head then
    (false, rb)
  else
    (true, { rb with
      tail := rb.tail + 1,
      buf := store16
        (memWrite rb.buf (rb.tail % rb.max_entries * rb.entry_size) data len)
        (rb.tail % rb.max_entries * rb.entry_size + (rb.entry_size - 2)) len })

/-- Outcome of LockFreeRingBuffer::try_dequeue in the sequential model:
empty is the return false branch; blocked is the spin loop on a zero
trailer, which with no concurrent publisher never returns; ok carries the
bytes copied out. -/
inductive DeqResult where
  | empty
  | blocked
  | ok (len : Nat) (data : List Nat)
  deriving DecidableEq, Repr

/-- LockFreeRingBuffer::try_dequeue: return false when head has reached
tail; otherwise read the trailer of the slot at head — a zero trailer
puts the consumer into the yield spin loop (blocked here, since the
sequential model has no concurrent publisher to wait for); a nonzero
trailer is the published length: copy that many bytes out, reset the
trailer to zero and advance head. -/
def RB.try_dequeue (rb : RB) : DeqResult × RB :=
  if rb.tail ≤ rb.head then
    (DeqResult.empty, rb)
  else
    if read16 rb.buf (rb.head % rb.max_entries * rb.entry_size + (rb.entry_size - 2)) = 0 then
      (DeqResult.blocked, rb)
    else
      (DeqResult.ok
        (read16 rb.buf (rb.head % rb.max_entries * rb.entry_size + (rb.entry_size - 2)))
        ((List.range (read16 rb.buf (rb.head % rb.max_entries * rb.entry_size + (rb.entry_size - 2)))).map
          (fun i => rb.buf (rb.head % rb.max_entries * rb.entry_size + i))),
       { rb with
         head := rb.head + 1,
         buf := store16 rb.buf
           (rb.head % rb.max_entries * rb.entry_size + (rb.entry_size - 2)) 0 })

/-- One queue operation of a sequential history. -/
inductive RBOp where
  | enq (data : Nat → Nat) (len : Nat)
  | deq

/-- Effect of one operation on the ring buffer state. -/
def RB.step (rb : RB) : RBOp → RB
  | RBOp.enq d l => (rb.try_enqueue d l).2
  | RBOp.deq => (rb.try_dequeue).2

/-- State after a sequential history of operations. -/
def RB.run (rb : RB) (ops : List RBOp) : RB :=
  ops.foldl RB.step rb

/-- A bounds-checking total embedding of the slot write of try_enqueue
(claim C10): identical to try_enqueue except that the branch in which the
memcpy of len bytes would not stay strictly below the trailer offset of
the slot is made explicit and returns none (the source performs no such
check and just writes). -/
def RB.try_enqueue_checked (rb : RB) (data : Nat → Nat) (len : Nat) :
    Option (Bool × RB) :=
  if rb.max_entries ≤ rb.tail - rb.head then
    some (false, rb)
  else if rb.entry_size - 2 < len then
    none
  else
    some (true, { rb with
      tail := rb.tail + 1,
      buf := store16
        (memWrite rb.buf (rb.tail % rb.max_entries * rb.entry_size) data len)
        (rb.tail % rb.max_entries * rb.entry_size + (rb.entry_size - 2)) len })

/-- ThreadLocalBatch::try_add on the first (empty) batch slot, at the
byte level: the batch backing array is the uninitialised member array,
modelled by an arbitrary byte map g; the source copies
min(len, entry_size - 2) bytes of the rendered record into the slot and
then stores the UNtruncated length, cast to uint16, into the two trailer
bytes at offset 254.  ENTRY_SIZE is the constant 256 of the source. -/
def batchTryAdd (g : Mem) (rcd : Nat → Nat) (len : Nat) : Mem :=
  store16 (memWrite g 0 rcd (min len (256 - 2))) (256 - 2) len

/-- The end-to-end byte path of one rendered record of length len through
the async pipeline, exactly as the source composes it:
Logger::log calls batch_.try_add (copy truncated to 254 bytes, trailer =
len cast to uint16); Logger::flush_batch reads the length back from the
trailer at offset 254 and calls try_enqueue with that length on the
standard queue LockFreeRingBuffer(256, 65536); the worker calls
try_dequeue and hands the copied bytes to the sink.  The value is the
byte run the sink receives (empty if the dequeue does not produce one). -/
def deliveredOneRecord (rcd : Nat → Nat) (len : Nat) (g : Mem) : List Nat :=
  let bbuf := batchTryAdd g rcd len
  let l1 := read16 bbuf (256 - 2)
  let rb1 := ((RB.init 256 65536).try_enqueue (fun i => bbuf i) l1).2
  match rb1.try_dequeue with
  | (DeqResult.ok _ out, _) => out
  | _ => []

/-- Record-level state of the async Logger facade as seen by one
producer thread: the thread-local scratch buffer, the thread-local batch
(at most BATCH_SIZE = 32 rendered records), the ring buffer contents at
record granularity, and the byte runs the sink has received. -/
structure LoggerM where
  scratch : String
  batch : List String
  queue : List String
  sink : List String
  deriving DecidableEq, Repr

/-- Logger::log in async mode at record granularity: the level guard
(static_cast int of L at least static_cast int of MinLevel) admits or
discards; an admitted record is rendered into the scratch buffer and
try_add is attempted; when the batch is full (32 entries) the batch is
flushed into the queue first and the add retried. -/
def logM (MinLevel L : LogLevel) (ns : Nat) (payload : String)
    (s : LoggerM) : LoggerM :=
  if MinLevel.toNat ≤ L.toNat then
    let rendered := render ns L payload
    let s := { s with scratch := rendered }
    if s.batch.length < 32 then
      { s with batch := s.batch ++ [rendered] }
    else
      { s with queue := s.queue ++ s.batch, batch := [rendered] }
  else
    s

/-- Logger::flush_batch at record granularity, with its notification
logic translated literally: the loop pushes every batch entry into the
queue (each entry retried with backoff until try_enqueue accepts it),
then batch_.clear() runs, and only THEN the source tests
batch_.size() > 0 before taking the mutex and calling cv_.notify_one().
The Bool of the result records whether that notification was issued. -/
def flushBatchModel (batch queue : List String) :
    List String × List String × Bool :=
  let queueAfter := queue ++ batch
  let batchAfterClear : List String := []
  let notified := decide (0 < batchAfterClear.length)
  (batchAfterClear, queueAfter, notified)

/-- Record counts of the shutdown scenario of claim C1: how many records
sit in the producer thread-local batch, in the ring buffer, and at the
sink.  Record identity is irrelevant to the claim, so only counts are
kept; the standard queue holds up to 65536 records so every flush in the
scenario finds room. -/
structure LogRun where
  batch : Nat
  queue : Nat
  sink : Nat
  deriving DecidableEq, Repr

/-- One Logger::log call of the emitting thread in async mode:
batch_.try_add succeeds while the batch holds fewer than 32 records;
on a full batch, flush_batch moves all 32 into the queue (the queue has
room throughout the scenario) and the add is retried. -/
def emitOne (s : LogRun) : LogRun :=
  if s.batch < 32 then
    { s with batch := s.batch + 1 }
  else
    { batch := 1, queue := s.queue + s.batch, sink := s.sink }

/-- n successive Logger::log calls from the one producer thread. -/
def emitN : Nat → LogRun → LogRun
  | 0, s => s
  | n + 1, s => emitN n (emitOne s)

/-- The destructor of the async Logger run on the producer thread, in
source order: running_ is set false and the worker joined — before
returning from its loop the worker performs its final drain, emptying
the queue into the sink; then the destructor calls flush(), which first
flushes the thread-local batch into the queue (flush_batch; its
notification is dead code) and then, since worker_ is still non-null,
spins in while (not queue_-empty()) yield until the queue drains.  The
worker has already been joined, so nothing consumes the queue: the spin
terminates exactly when the queue is empty at that point.  The result is
some sinkCount when the destructor returns, and none when it spins
forever. -/
def destructorRun (s : LogRun) : Option Nat :=
  let s1 : LogRun := { batch := s.batch, queue := 0, sink := s.sink + s.queue }
  let s2 : LogRun :=
    if 0 < s1.batch then
      { batch := 0, queue := s1.queue + s1.batch, sink := s1.sink }
    else
      s1
  if s2.queue = 0 then some s2.sink else none

/-- One backoff action of Logger::flush_batch on a rejected enqueue:
a burst of n calls to std::this_thread::yield, or a sleep of n
nanoseconds. -/
inductive BAct where
  | yld (n : Nat)
  | sleep (n : Nat)
  deriving DecidableEq, Repr

/-- The retry loop of Logger::flush_batch for one record, driven by an
oracle oc giving the result of each successive try_enqueue attempt
(attempt k fails when the queue is observed full).  Translated from
int backoff = 0; while (not try_enqueue(data, len)) { if (backoff <
BACKOFF_MAX) { yield 1 shl backoff times; ++backoff; } else { sleep
100ns; } } with BACKOFF_MAX = 4.  fuel bounds the unrolling; the value
is some of the list of backoff actions taken once an attempt succeeds
(the record is then in the queue), and none if fuel runs out first. -/
def backoffRetry : Nat → (Nat → Bool) → Nat → Nat → Option (List BAct)
  | 0, _, _, _ => none
  | fuel + 1, oc, k, b =>
    if oc k then
      some []
    else if b < 4 then
      (backoffRetry fuel oc (k + 1) (b + 1)).map (fun acts => BAct.yld (2 ^ b) :: acts)
    else
      (backoffRetry fuel oc (k + 1) b).map (fun acts => BAct.sleep 100 :: acts)

/-- The backoff schedule the spec prescribes when the first f attempts
fail: on attempt k below 4, a burst of 2 to the k yields; from attempt 4
on, a 100 ns sleep. -/
def backoffSpec (f : Nat) : List BAct :=
  (List.range f).map (fun k => if k < 4 then BAct.yld (2 ^ k) else BAct.sleep 100)

/-- Counter discipline of the ring buffer: head at most tail and at most
max_entries slots in use. -/
def RBBnd (s : RB) : Prop :=
  s.head ≤ s.tail ∧ s.tail - s.head ≤ s.max_entries

/-- Byte offset of the two-byte length trailer of slot i. -/
def trailerOff (es i : Nat) : Nat := i * es + (es - 2)

/-- Trailer discipline of the ring buffer: the trailer of slot i is
nonzero exactly when some reserved-and-published index j in
[head, tail) maps to slot i. -/
def RBTrailerInv (s : RB) : Prop :=
  ∀ i < s.max_entries,
    read16 s.buf (trailerOff s.entry_size i) ≠ 0 ↔
      ∃ j, s.head ≤ j ∧ j < s.tail ∧ j % s.max_entries = i

/-- Side condition on one queue operation under which the trailer
discipline is maintained: an enqueued length has nonzero low 16 bits and
fits below the trailer of its slot. -/
def GoodOp (es : Nat) : RBOp → Prop
  | RBOp.enq _ l => l % 65536 ≠ 0 ∧ l ≤ es - 2
  | RBOp.deq => True

/-- A fresh two-entry ring of standard 256-byte slots after one
try_enqueue of a zero-length payload: the slot at index 0 is reserved and
fully published (the memcpy of zero bytes and the trailer store both
ran), yet its trailer holds zero. -/
def zeroLenState : RB := ((RB.init 256 2).try_enqueue (fun _ => 0) 0).2

theorem memWrite_apply_notin (b : Mem) (off : Nat) (src : Nat → Nat) (n i : Nat)
    (h : ∀ k < n, i ≠ off + k) : memWrite b off src n i = b i := by
  unfold memWrite
  rw [if_neg]
  rintro ⟨h1, h2⟩
  exact h (i - off) (by omega) (by omega)

theorem store16_apply_ne (b : Mem) (off v i : Nat) (h1 : i ≠ off)
    (h2 : i ≠ off + 1) : store16 b off v i = b i := by
  unfold store16
  rw [if_neg h1, if_neg h2]

theorem read16_store16_same (b : Mem) (off v : Nat) :
    read16 (store16 b off v) off = v % 65536 := by
  unfold read16 store16
  rw [if_pos rfl, if_neg (by omega), if_pos rfl]
  have : (65536 : Nat) = 256 * 256 := by norm_num
  rw [this, Nat.mod_mul]

theorem read16_store16_ne (b : Mem) (off v o : Nat) (h1 : o ≠ off)
    (h2 : o ≠ off + 1) (h3 : o + 1 ≠ off) : read16 (store16 b off v) o = read16 b o := by
  unfold read16
  rw [store16_apply_ne b off v o h1 h2, store16_apply_ne b off v (o + 1) h3 (by omega)]

theorem slot_off_ne (es : Nat) {a b x y : Nat} (hab : a ≠ b) (hx : x < es)
    (hy : y < es) : a * es + x ≠ b * es + y := by
  rcases Nat.lt_or_ge a b with h | h
  · have h1 : (a + 1) * es ≤ b * es := Nat.mul_le_mul_right es h
    have h2 : (a + 1) * es = a * es + es := by ring
    omega
  · have hba : b < a := by omega
    have h1 : (b + 1) * es ≤ a * es := Nat.mul_le_mul_right es hba
    have h2 : (b + 1) * es = b * es + es := by ring
    omega

theorem try_enqueue_full (rb : RB) (d : Nat → Nat) (l : Nat)
    (h : rb.max_entries ≤ rb.tail - rb.head) : rb.try_enqueue d l = (false, rb) := by
  unfold RB.try_enqueue
  rw [if_pos h]

theorem try_enqueue_ok (rb : RB) (d : Nat → Nat) (l : Nat)
    (h : ¬ rb.max_entries ≤ rb.tail - rb.head) :
    rb.try_enqueue d l = (true, { rb with
      tail := rb.tail + 1,
      buf := store16
        (memWrite rb.buf (rb.tail % rb.max_entries * rb.entry_size) d l)
        (rb.tail % rb.max_entries * rb.entry_size + (rb.entry_size - 2)) l }) := by
  unfold RB.try_enqueue
  rw [if_neg h]

theorem try_dequeue_empty (rb : RB) (h : rb.tail ≤ rb.head) :
    rb.try_dequeue = (DeqResult.empty, rb) := by
  unfold RB.try_dequeue
  rw [if_pos h]

theorem try_dequeue_blocked (rb : RB) (h1 : ¬ rb.tail ≤ rb.head)
    (h2 : read16 rb.buf (rb.head % rb.max_entries * rb.entry_size + (rb.entry_size - 2)) = 0) :
    rb.try_dequeue = (DeqResult.blocked, rb) := by
  unfold RB.try_dequeue
  rw [if_neg h1, if_pos h2]

theorem try_dequeue_ok (rb : RB) (h1 : ¬ rb.tail ≤ rb.head)
    (h2 : ¬ read16 rb.buf (rb.head % rb.max_entries * rb.entry_size + (rb.entry_size - 2)) = 0) :
    rb.try_dequeue = (DeqResult.ok
        (read16 rb.buf (rb.head % rb.max_entries * rb.entry_size + (rb.entry_size - 2)))
        ((List.range (read16 rb.buf (rb.head % rb.max_entries * rb.entry_size + (rb.entry_size - 2)))).map
          (fun i => rb.buf (rb.head % rb.max_entries * rb.entry_size + i))),
      { rb with
        head := rb.head + 1,
        buf := store16 rb.buf
          (rb.head % rb.max_entries * rb.entry_size + (rb.entry_size - 2)) 0 }) := by
  unfold RB.try_dequeue
  rw [if_neg h1, if_neg h2]

theorem step_enq (rb : RB) (d : Nat → Nat) (l : Nat) :
    rb.step (RBOp.enq d l) = (rb.try_enqueue d l).2 := rfl

theorem step_deq (rb : RB) : rb.step RBOp.deq = (rb.try_dequeue).2 := rfl

theorem step_fields (rb : RB) (op : RBOp) :
    (rb.step op).entry_size = rb.entry_size ∧
    (rb.step op).max_entries = rb.max_entries ∧
    rb.head ≤ (rb.step op).head ∧ rb.tail ≤ (rb.step op).tail := by
  cases op with
  | enq d l =>
    rw [step_enq]
    by_cases h : rb.max_entries ≤ rb.tail - rb.head
    · rw [try_enqueue_full rb d l h]
      exact ⟨rfl, rfl, Nat.le_refl _, Nat.le_refl _⟩
    · rw [try_enqueue_ok rb d l h]
      exact ⟨rfl, rfl, Nat.le_refl _, Nat.le_succ _⟩
  | deq =>
    rw [step_deq]
    by_cases h1 : rb.tail ≤ rb.head
    · rw [try_dequeue_empty rb h1]
      exact ⟨rfl, rfl, Nat.le_refl _, Nat.le_refl _⟩
    · by_cases h2 : read16 rb.buf (rb.head % rb.max_entries * rb.entry_size + (rb.entry_size - 2)) = 0
      · rw [try_dequeue_blocked rb h1 h2]
        exact ⟨rfl, rfl, Nat.le_refl _, Nat.le_refl _⟩
      · rw [try_dequeue_ok rb h1 h2]
        exact ⟨rfl, rfl, Nat.le_succ _, Nat.le_refl _⟩

theorem step_entry_size (rb : RB) (op : RBOp) :
    (rb.step op).entry_size = rb.entry_size := (step_fields rb op).1

theorem step_max_entries (rb : RB) (op : RBOp) :
    (rb.step op).max_entries = rb.max_entries := (step_fields rb op).2.1

theorem Bnd_step (rb : RB) (op : RBOp) (h : RBBnd rb) : RBBnd (rb.step op) := by
  obtain ⟨h1, h2⟩ := h
  cases op with
  | enq d l =>
    rw [RBBnd, step_enq]
    by_cases h3 : rb.max_entries ≤ rb.tail - rb.head
    · rw [try_enqueue_full rb d l h3]
      exact ⟨h1, h2⟩
    · rw [try_enqueue_ok rb d l h3]
      refine ⟨?_, ?_⟩
      · show rb.head ≤ rb.tail + 1
        omega
      · show rb.tail + 1 - rb.head ≤ rb.max_entries
        omega
  | deq =>
    rw [RBBnd, step_deq]
    by_cases h3 : rb.tail ≤ rb.head
    · rw [try_dequeue_empty rb h3]
      exact ⟨h1, h2⟩
    · by_cases h4 : read16 rb.buf (rb.head % rb.max_entries * rb.entry_size + (rb.entry_size - 2)) = 0
      · rw [try_dequeue_blocked rb h3 h4]
        exact ⟨h1, h2⟩
      · rw [try_dequeue_ok rb h3 h4]
        refine ⟨?_, ?_⟩
        · show rb.head + 1 ≤ rb.tail
          omega
        · show rb.tail - (rb.head + 1) ≤ rb.max_entries
          omega

theorem read16_memWrite_notin (b : Mem) (off : Nat) (src : Nat → Nat) (n o : Nat)
    (h1 : ∀ k < n, o ≠ off + k) (h2 : ∀ k < n, o + 1 ≠ off + k) :
    read16 (memWrite b off src n) o = read16 b o := by
  unfold read16
  rw [memWrite_apply_notin b off src n o h1, memWrite_apply_notin b off src n (o + 1) h2]

theorem Bnd_init (es me : Nat) : RBBnd (RB.init es me) := by
  constructor
  · exact Nat.le_refl 0
  · show 0 - 0 ≤ me
    omega

theorem TrailerInv_init (es me : Nat) : RBTrailerInv (RB.init es me) := by
  intro i _
  constructor
  · intro h
    exact absurd rfl h
  · rintro ⟨j, hj1, hj2, _⟩
    have h1 : (0 : Nat) ≤ j := hj1
    have h2 : j < 0 := hj2
    omega

theorem TrailerInv_step (rb : RB) (op : RBOp) (hes : 2 ≤ rb.entry_size)
    (hb : RBBnd rb) (ht : RBTrailerInv rb) (hg : GoodOp rb.entry_size op) :
    RBTrailerInv (rb.step op) := by
  obtain ⟨hb1, hb2⟩ := hb
  have hlt : rb.entry_size - 2 < rb.entry_size := by omega
  have hlt1 : rb.entry_size - 1 < rb.entry_size := by omega
  cases op with
  | enq d l =>
    obtain ⟨hl1, hl2⟩ := hg
    by_cases h3 : rb.max_entries ≤ rb.tail - rb.head
    · rw [step_enq, try_enqueue_full rb d l h3]
      exact ht
    · rw [step_enq, try_enqueue_ok rb d l h3]
      intro i hi
      have hi' : i < rb.max_entries := hi
      show read16
          (store16 (memWrite rb.buf (rb.tail % rb.max_entries * rb.entry_size) d l)
            (rb.tail % rb.max_entries * rb.entry_size + (rb.entry_size - 2)) l)
          (trailerOff rb.entry_size i) ≠ 0 ↔
        ∃ j, rb.head ≤ j ∧ j < rb.tail + 1 ∧ j % rb.max_entries = i
      unfold trailerOff
      by_cases hit : i = rb.tail % rb.max_entries
      · subst hit
        rw [read16_store16_same]
        constructor
        · intro _
          exact ⟨rb.tail, hb1, Nat.lt_succ_self _, rfl⟩
        · intro _
          exact hl1
      · have hne1 : i * rb.entry_size + (rb.entry_size - 2) ≠
            rb.tail % rb.max_entries * rb.entry_size + (rb.entry_size - 2) :=
          slot_off_ne rb.entry_size hit hlt hlt
        have hne2 : i * rb.entry_size + (rb.entry_size - 2) ≠
            rb.tail % rb.max_entries * rb.entry_size + (rb.entry_size - 2) + 1 := by
          have h' := slot_off_ne rb.entry_size hit hlt hlt1
          omega
        have hne3 : i * rb.entry_size + (rb.entry_size - 2) + 1 ≠
            rb.tail % rb.max_entries * rb.entry_size + (rb.entry_size - 2) := by
          have h' := slot_off_ne rb.entry_size hit hlt1 hlt
          omega
        have hmem1 : ∀ k < l, i * rb.entry_size + (rb.entry_size - 2) ≠
            rb.tail % rb.max_entries * rb.entry_size + k := by
          intro k hk
          exact slot_off_ne rb.entry_size hit hlt (by omega)
        have hmem2 : ∀ k < l, i * rb.entry_size + (rb.entry_size - 2) + 1 ≠
            rb.tail % rb.max_entries * rb.entry_size + k := by
          intro k hk
          have h' := slot_off_ne rb.entry_size hit hlt1 (show k < rb.entry_size by omega)
          omega
        rw [read16_store16_ne _ _ _ _ hne1 hne2 hne3,
          read16_memWrite_notin _ _ _ _ _ hmem1 hmem2]
        have hti := ht i hi'
        unfold trailerOff at hti
        rw [hti]
        constructor
        · rintro ⟨j, hj1, hj2, hj3⟩
          exact ⟨j, hj1, by omega, hj3⟩
        · rintro ⟨j, hj1, hj2, hj3⟩
          refine ⟨j, hj1, ?_, hj3⟩
          rcases Nat.lt_succ_iff_lt_or_eq.mp hj2 with h | h
          · exact h
          · exfalso
            subst h
            exact hit hj3.symm
  | deq =>
    by_cases h3 : rb.tail ≤ rb.head
    · rw [step_deq, try_dequeue_empty rb h3]
      exact ht
    · by_cases h4 : read16 rb.buf
          (rb.head % rb.max_entries * rb.entry_size + (rb.entry_size - 2)) = 0
      · rw [step_deq, try_dequeue_blocked rb h3 h4]
        exact ht
      · rw [step_deq, try_dequeue_ok rb h3 h4]
        have hme : 0 < rb.max_entries := by omega
        intro i hi
        have hi' : i < rb.max_entries := hi
        show read16
            (store16 rb.buf
              (rb.head % rb.max_entries * rb.entry_size + (rb.entry_size - 2)) 0)
            (trailerOff rb.entry_size i) ≠ 0 ↔
          ∃ j, rb.head + 1 ≤ j ∧ j < rb.tail ∧ j % rb.max_entries = i
        unfold trailerOff
        by_cases hit : i = rb.head % rb.max_entries
        · subst hit
          rw [read16_store16_same]
          constructor
          · intro h
            exact absurd rfl h
          · rintro ⟨j, hj1, hj2, hj3⟩
            exfalso
            have hmod : rb.head ≡ j [MOD rb.max_entries] := hj3.symm
            have hdvd : rb.max_entries ∣ j - rb.head :=
              (Nat.modEq_iff_dvd' (by omega)).mp hmod
            have hge := Nat.le_of_dvd (by omega) hdvd
            omega
        · have hne1 : i * rb.entry_size + (rb.entry_size - 2) ≠
              rb.head % rb.max_entries * rb.entry_size + (rb.entry_size - 2) :=
            slot_off_ne rb.entry_size hit hlt hlt
          have hne2 : i * rb.entry_size + (rb.entry_size - 2) ≠
              rb.head % rb.max_entries * rb.entry_size + (rb.entry_size - 2) + 1 := by
            have h' := slot_off_ne rb.entry_size hit hlt hlt1
            omega
          have hne3 : i * rb.entry_size + (rb.entry_size - 2) + 1 ≠
              rb.head % rb.max_entries * rb.entry_size + (rb.entry_size - 2) := by
            have h' := slot_off_ne rb.entry_size hit hlt1 hlt
            omega
          rw [read16_store16_ne _ _ _ _ hne1 hne2 hne3]
          have hti := ht i hi'
          unfold trailerOff at hti
          rw [hti]
          constructor
          · rintro ⟨j, hj1, hj2, hj3⟩
            refine ⟨j, ?_, hj2, hj3⟩
            rcases Nat.eq_or_lt_of_le hj1 with h | h
            · exfalso
              exact hit (h ▸ hj3).symm
            · omega
          · rintro ⟨j, hj1, hj2, hj3⟩
            exact ⟨j, by omega, hj2, hj3⟩

theorem Inv_run (rb : RB) (ops : List RBOp) (hes : 2 ≤ rb.entry_size)
    (hgood : ∀ op ∈ ops, GoodOp rb.entry_size op)
    (hb : RBBnd rb) (ht : RBTrailerInv rb) :
    RBBnd (rb.run ops) ∧ RBTrailerInv (rb.run ops) := by
  induction ops generalizing rb with
  | nil => exact ⟨hb, ht⟩
  | cons op rest ih =>
    have hg : GoodOp rb.entry_size op := hgood op (List.mem_cons_self ..)
    have h1 := Bnd_step rb op hb
    have h2 := TrailerInv_step rb op hes hb ht hg
    have hes' : 2 ≤ (rb.step op).entry_size := by
      rw [step_entry_size]
      exact hes
    have hgood' : ∀ o ∈ rest, GoodOp (rb.step op).entry_size o := by
      rw [step_entry_size]
      exact fun o ho => hgood o (List.mem_cons_of_mem _ ho)
    exact ih (rb.step op) hes' hgood' h1 h2

theorem Bnd_run (rb : RB) (ops : List RBOp) (h : RBBnd rb) : RBBnd (rb.run ops) := by
  induction ops generalizing rb with
  | nil => exact h
  | cons op rest ih => exact ih (rb.step op) (Bnd_step rb op h)

theorem run_entry_size (rb : RB) (ops : List RBOp) :
    (rb.run ops).entry_size = rb.entry_size := by
  induction ops generalizing rb with
  | nil => rfl
  | cons op rest ih => rw [RB.run, List.foldl_cons, ← RB.run, ih, step_entry_size]

theorem run_max_entries (rb : RB) (ops : List RBOp) :
    (rb.run ops).max_entries = rb.max_entries := by
  induction ops generalizing rb with
  | nil => rfl
  | cons op rest ih => rw [RB.run, List.foldl_cons, ← RB.run, ih, step_max_entries]

theorem emitOne_batch_pos (s : LogRun) : 0 < (emitOne s).batch := by
  unfold emitOne
  by_cases h : s.batch < 32
  · rw [if_pos h]
    show 0 < s.batch + 1
    omega
  · rw [if_neg h]
    show 0 < 1
    omega

theorem emitN_batch_pos (n : Nat) (s : LogRun) (h : 0 < s.batch) :
    0 < (emitN n s).batch := by
  induction n generalizing s with
  | zero => exact h
  | succ n ih => exact ih (emitOne s) (emitOne_batch_pos s)

theorem destructorRun_batch_pos (s : LogRun) (h : 0 < s.batch) :
    destructorRun s = none := by
  have h2 : ¬ s.batch = 0 := by omega
  simp [destructorRun, h, h2]

/-- C1: the spec expects the destructor to return with the sink holding
every emitted record, including the ones still in the thread-local
batch.  On the source, after 1000 emits the batch is non-empty; the
destructor joins the worker first, and only then flush() moves the batch
into the queue and spins waiting for a queue that no live worker drains:
the destructor never returns (and those batch records never reach the
sink).  The sequential run of the scenario therefore yields none. -/
theorem claim_C1_shutdown_drain :
    destructorRun (emitN 1000 { batch := 0, queue := 0, sink := 0 }) = none := by
  apply destructorRun_batch_pos
  show 0 < (emitN 999 (emitOne { batch := 0, queue := 0, sink := 0 })).batch
  exact emitN_batch_pos 999 _ (emitOne_batch_pos _)

set_option maxRecDepth 10000 in
/-- C2: the claim caps the sink-received byte count of every record at
SLOT - 2 = 254.  On the source, a record whose rendered form is 400
bytes is stored truncated in the batch slot but its trailer records the
full 400; flush_batch reads that trailer back and the queue and worker
then move 400 bytes end to end, so the sink receives 400 bytes, not at
most 254.  This evaluates the code path at that failing input. -/
theorem claim_C2_truncation :
    (deliveredOneRecord (fun i => i % 256) 400 (fun _ => 0)).length = 400 := by
  decide

/-- C4: the claim says the worker wake-up notification is issued after
every non-empty batch flush.  The source tests batch_.size() > 0 only
after batch_.clear(), so the test is always false: for every batch,
non-empty ones included, flush_batch pushes the records and issues no
notification. -/
theorem claim_C4_no_notify (batch queue : List String) :
    (flushBatchModel batch queue).2.1 = queue ++ batch ∧
    (flushBatchModel batch queue).2.2 = false :=
  ⟨rfl, rfl⟩

/-- C3 counterexample: the claim says try_dequeue returns false whenever
the queue is empty OR the trailer of the oldest reserved slot is zero.
In the reachable state zeroLenState the queue is non-empty and the
oldest trailer is zero, yet the call does not return false: it enters
the spin loop (blocked) instead, so the claimed equivalence is false. -/
theorem claim_C3_counterexample :
    ¬ ((zeroLenState.try_dequeue.1 = DeqResult.empty) ↔
       (zeroLenState.tail ≤ zeroLenState.head ∨
        read16 zeroLenState.buf
          (zeroLenState.head % zeroLenState.max_entries * zeroLenState.entry_size +
            (zeroLenState.entry_size - 2)) = 0)) := by
  decide

/-- C3 amended: try_dequeue returns false exactly when the queue is
empty (tail at most head), and then leaves the state unchanged; when the
queue is non-empty but the oldest reserved slot's trailer is zero, the
call does not return false — it stays in the yield spin loop (blocked in
the sequential model), also consuming nothing. -/
theorem claim_C3_dequeue_empty (rb : RB) :
    ((rb.try_dequeue.1 = DeqResult.empty) ↔ rb.tail ≤ rb.head) ∧
    (rb.tail ≤ rb.head → rb.try_dequeue = (DeqResult.empty, rb)) ∧
    (¬ rb.tail ≤ rb.head →
      read16 rb.buf (rb.head % rb.max_entries * rb.entry_size + (rb.entry_size - 2)) = 0 →
      rb.try_dequeue = (DeqResult.blocked, rb)) := by
  refine ⟨?_, fun h => try_dequeue_empty rb h, fun h1 h2 => try_dequeue_blocked rb h1 h2⟩
  constructor
  · intro h
    by_contra hc
    by_cases h2 : read16 rb.buf
        (rb.head % rb.max_entries * rb.entry_size + (rb.entry_size - 2)) = 0
    · rw [try_dequeue_blocked rb hc h2] at h
      simp at h
    · rw [try_dequeue_ok rb hc h2] at h
      simp at h
  · intro h
    rw [try_dequeue_empty rb h]

theorem claim_C3_dequeue_empty_witness :
    zeroLenState.try_dequeue = (DeqResult.blocked, zeroLenState) :=
  (claim_C3_dequeue_empty zeroLenState).2.2 (by decide) (by decide)

/-- C5: in every state reached from a fresh ring buffer by a sequential
history of try_enqueue and try_dequeue operations, head is at most tail
and at most max_entries slots are in use; one further operation never
decreases either counter; and on a full queue try_enqueue returns false
leaving the state unchanged, so the bound is never exceeded. -/
theorem claim_C5_queue_bound (es me : Nat) (ops : List RBOp) (op : RBOp)
    (d : Nat → Nat) (l : Nat) :
    (RB.run (RB.init es me) ops).head ≤ (RB.run (RB.init es me) ops).tail ∧
    (RB.run (RB.init es me) ops).tail - (RB.run (RB.init es me) ops).head ≤ me ∧
    (RB.run (RB.init es me) ops).head ≤ ((RB.run (RB.init es me) ops).step op).head ∧
    (RB.run (RB.init es me) ops).tail ≤ ((RB.run (RB.init es me) ops).step op).tail ∧
    (me ≤ (RB.run (RB.init es me) ops).tail - (RB.run (RB.init es me) ops).head →
      (RB.run (RB.init es me) ops).try_enqueue d l = (false, RB.run (RB.init es me) ops)) := by
  have hb := Bnd_run (RB.init es me) ops (Bnd_init es me)
  have hME : (RB.run (RB.init es me) ops).max_entries = me :=
    run_max_entries (RB.init es me) ops
  obtain ⟨h1, h2⟩ := hb
  refine ⟨h1, ?_, (step_fields _ op).2.2.1, (step_fields _ op).2.2.2, ?_⟩
  · exact le_of_le_of_eq h2 hME
  · intro hfull
    exact try_enqueue_full _ d l (by rw [hME]; exact hfull)

theorem claim_C5_queue_bound_witness :
    (RB.run (RB.init 256 1) [RBOp.enq (fun _ => 3) 3]).try_enqueue (fun _ => 5) 5 =
      (false, RB.run (RB.init 256 1) [RBOp.enq (fun _ => 3) 3]) :=
  (claim_C5_queue_bound 256 1 [RBOp.enq (fun _ => 3) 3] RBOp.deq
    (fun _ => 5) 5).2.2.2.2 (by decide)

/-- C6 counterexample: the claim requires the trailer discipline even
for an accepted payload length whose low 16 bits are zero.  After one
try_enqueue of length 0 on a fresh two-entry standard ring, index 0 is
reserved, fully published and unconsumed (head = 0 < tail = 1), yet the
slot 0 trailer reads zero: the claimed equivalence fails at slot 0. -/
theorem claim_C6_counterexample :
    ¬ (read16 (RB.run (RB.init 256 2) [RBOp.enq (fun _ => 0) 0]).buf
          (trailerOff 256 0) ≠ 0 ↔
        ∃ j, (RB.run (RB.init 256 2) [RBOp.enq (fun _ => 0) 0]).head ≤ j ∧
          j < (RB.run (RB.init 256 2) [RBOp.enq (fun _ => 0) 0]).tail ∧
          j % (RB.run (RB.init 256 2) [RBOp.enq (fun _ => 0) 0]).max_entries = 0) := by
  intro h
  have h0 : read16 (RB.run (RB.init 256 2) [RBOp.enq (fun _ => 0) 0]).buf
      (trailerOff 256 0) = 0 := by decide
  exact h.mpr ⟨0, by decide, by decide, by decide⟩ h0

/-- C6 amended: provided every enqueued payload length has nonzero low
16 bits and fits below the trailer (at most entry_size - 2, the implicit
bound of C10), then in every reachable state a slot trailer is nonzero
exactly when a published index in [head, tail) maps to that slot, and in
particular at quiescence (head = tail) every trailer is zero. -/
theorem claim_C6_trailer_inv (es me : Nat) (ops : List RBOp) (hes : 2 ≤ es)
    (hlen : ∀ d l, RBOp.enq d l ∈ ops → l % 65536 ≠ 0 ∧ l ≤ es - 2) :
    (∀ i < me,
      read16 (RB.run (RB.init es me) ops).buf (trailerOff es i) ≠ 0 ↔
        ∃ j, (RB.run (RB.init es me) ops).head ≤ j ∧
          j < (RB.run (RB.init es me) ops).tail ∧ j % me = i) ∧
    ((RB.run (RB.init es me) ops).head = (RB.run (RB.init es me) ops).tail →
      ∀ i < me, read16 (RB.run (RB.init es me) ops).buf (trailerOff es i) = 0) := by
  have hgood : ∀ op ∈ ops, GoodOp (RB.init es me).entry_size op := by
    intro op hop
    cases op with
    | enq d l => exact hlen d l hop
    | deq => trivial
  obtain ⟨hbnd, htr⟩ :=
    Inv_run (RB.init es me) ops hes hgood (Bnd_init es me) (TrailerInv_init es me)
  have hME : (RB.run (RB.init es me) ops).max_entries = me :=
    run_max_entries (RB.init es me) ops
  have hES : (RB.run (RB.init es me) ops).entry_size = es :=
    run_entry_size (RB.init es me) ops
  constructor
  · intro i hi
    have hti := htr i (by rw [hME]; exact hi)
    rw [hES, hME] at hti
    exact hti
  · intro hq i hi
    have hti := htr i (by rw [hME]; exact hi)
    rw [hES, hME] at hti
    by_contra hne
    obtain ⟨j, hj1, hj2, _⟩ := hti.mp hne
    omega

theorem claim_C6_trailer_inv_witness :
    read16 (RB.run (RB.init 256 2) [RBOp.enq (fun _ => 7) 3, RBOp.deq]).buf
      (trailerOff 256 0) = 0 :=
  (claim_C6_trailer_inv 256 2 [RBOp.enq (fun _ => 7) 3, RBOp.deq] (by norm_num)
    (by
      intro d l hmem
      rcases List.mem_cons.mp hmem with h | h2
      · injection h with hd hl
        subst hl
        exact ⟨by decide, by decide⟩
      · cases List.mem_singleton.mp h2)).2 (by decide) 0 (by decide)

/-- C7: a log call whose level is strictly below the configured minimum
is discarded by the level guard before any rendering: the whole logger
state seen by the producer — scratch buffer, thread-local batch, queue
and sink — is returned unchanged. -/
theorem claim_C7_level_filter (MinLevel L : LogLevel) (ns : Nat) (payload : String)
    (s : LoggerM) (h : L.toNat < MinLevel.toNat) :
    logM MinLevel L ns payload s = s := by
  unfold logM
  rw [if_neg (by omega)]

theorem claim_C7_level_filter_witness :
    logM LogLevel.INFO LogLevel.DEBUG 5 "x"
        { scratch := "", batch := [], queue := [], sink := [] } =
      { scratch := "", batch := [], queue := [], sink := [] } :=
  claim_C7_level_filter LogLevel.INFO LogLevel.DEBUG 5 "x" _ (by decide)

theorem backoffRetry_aux (f : Nat) (oc : Nat → Bool) : ∀ fuel k b, b = min k 4 →
    k ≤ f → (∀ j, k ≤ j → j < f → oc j = false) → oc f = true → f - k < fuel →
    backoffRetry fuel oc k b =
      some ((List.range' k (f - k)).map
        (fun j => if j < 4 then BAct.yld (2 ^ j) else BAct.sleep 100)) := by
  intro fuel
  induction fuel with
  | zero =>
    intro k b _ _ _ _ hfu
    omega
  | succ fuel ih =>
    intro k b hb hkf hfail hsucc hfu
    by_cases hk : oc k = true
    · have hkf2 : k = f := by
        by_contra hne
        have hlt : k < f := by omega
        rw [hfail k (Nat.le_refl k) hlt] at hk
        exact Bool.noConfusion hk
      subst hkf2
      unfold backoffRetry
      rw [if_pos hk, Nat.sub_self]
      rfl
    · have hkb : oc k = false := by
        cases hoc : oc k
        · rfl
        · exact absurd hoc hk
      have hklt : k < f := by
        rcases Nat.eq_or_lt_of_le hkf with h | h
        · subst h
          rw [hsucc] at hkb
          exact Bool.noConfusion hkb
        · exact h
      have hr : List.range' k (f - k) = k :: List.range' (k + 1) (f - (k + 1)) := by
        have hfk : f - k = (f - (k + 1)) + 1 := by omega
        rw [hfk, List.range'_succ]
      unfold backoffRetry
      rw [if_neg (by rw [hkb]; exact Bool.false_ne_true)]
      by_cases hb4 : b < 4
      · rw [if_pos hb4,
          ih (k + 1) (b + 1) (by omega) (by omega)
            (fun j hj1 hj2 => hfail j (by omega) hj2) hsucc (by omega)]
        rw [hr, List.map_cons]
        have hk4 : k < 4 := by omega
        have hbk : b = k := by omega
        rw [if_pos hk4, hbk]
        rfl
      · rw [if_neg hb4,
          ih (k + 1) b (by omega) (by omega)
            (fun j hj1 hj2 => hfail j (by omega) hj2) hsucc (by omega)]
        rw [hr, List.map_cons]
        have hk4 : ¬ k < 4 := by omega
        rw [if_neg hk4]
        rfl

/-- C8: when the first f try_enqueue attempts for a record fail (full
queue) and attempt f succeeds, the flush_batch retry loop terminates
with the record accepted (the some outcome), having taken exactly the
capped exponential backoff schedule: a burst of 2 to the k yields on
each failed attempt k below 4, and a 100 ns sleep on every failed
attempt from the fourth on.  The loop never gives the record up. -/
theorem claim_C8_backoff (f : Nat) (oc : Nat → Bool)
    (hfail : ∀ k < f, oc k = false) (hsucc : oc f = true)
    (fuel : Nat) (hfuel : f < fuel) :
    backoffRetry fuel oc 0 0 = some (backoffSpec f) := by
  rw [backoffRetry_aux f oc fuel 0 0 (by omega) (Nat.zero_le f)
    (fun j _ hj => hfail j hj) hsucc (by omega)]
  unfold backoffSpec
  rw [List.range_eq_range' f, Nat.sub_zero]

theorem claim_C8_backoff_witness :
    backoffRetry 10 (fun k => decide (6 ≤ k)) 0 0 = some (backoffSpec 6) :=
  claim_C8_backoff 6 (fun k => decide (6 ≤ k)) (by decide) (by decide) 10 (by decide)

theorem strAppend_assoc (a b c : String) : a ++ b ++ c = a ++ (b ++ c) := by
  apply String.ext
  simp [String.data_append, List.append_assoc]

/-- C9: the record built by Logger::log equals exactly the grammar
seconds, a dot, nanos, a space, the single-character level tag, a space,
the payload, a newline — with the tags of TRACE..CRITICAL being
T, D, I, W, E, C in order (the indexing of "TDIWEC" agrees with the
spec's per-level table). -/
theorem claim_C9_record_format (ns : Nat) (L : LogLevel) (payload : String) :
    render ns L payload = renderSpec ns L payload := by
  have htag : levelTag L = levelTagSpec L := by
    cases L <;> rfl
  unfold render renderSpec
  rw [htag]
  apply String.ext
  simp [String.data_append, List.append_assoc]

/-- C10: try_enqueue itself checks no bound on len.  The memcpy into the
reserved slot stays strictly below the slot's two-byte trailer for every
copied offset exactly when len is at most entry_size - 2; and under that
implicit precondition the bounds-checking total embedding of the slot
write never takes its out-of-bounds branch and agrees with the source's
unchecked try_enqueue. -/
theorem claim_C10_slot_write_bounds (rb : RB) (d : Nat → Nat) (len : Nat)
    (_hes : 2 ≤ rb.entry_size) :
    ((len ≤ rb.entry_size - 2) ↔
      (∀ k < len, rb.tail % rb.max_entries * rb.entry_size + k <
        rb.tail % rb.max_entries * rb.entry_size + (rb.entry_size - 2))) ∧
    (len ≤ rb.entry_size - 2 →
      rb.try_enqueue_checked d len = some (rb.try_enqueue d len)) := by
  constructor
  · constructor
    · intro h k hk
      omega
    · intro h
      by_contra hc
      have h2 := h (rb.entry_size - 2) (by omega)
      omega
  · intro h
    unfold RB.try_enqueue_checked RB.try_enqueue
    by_cases hfull : rb.max_entries ≤ rb.tail - rb.head
    · rw [if_pos hfull, if_pos hfull]
    · rw [if_neg hfull, if_neg hfull, if_neg (show ¬ rb.entry_size - 2 < len by omega)]

theorem claim_C10_slot_write_bounds_witness :
    (RB.init 256 4).try_enqueue_checked (fun _ => 9) 254 =
      some ((RB.init 256 4).try_enqueue (fun _ => 9) 254) :=
  (claim_C10_slot_write_bounds (RB.init 256 4) (fun _ => 9) 254 (by decide)).2 (by decide)

end ZeroLog
